import Mathlib

/-!
Shallow embedding of the meeting-scheduler core of the repository
(`multi_agent/agents/schedule_analyst.py`, `multi_agent/agents/negotiation_specialist.py`,
`multi_agent/autogent/coordinator.py`, `multi_agent/config/models.py`).

Conventions of the embedding:
* Absolute timestamps are integers counting minutes since an epoch that falls on a
  Monday at 00:00, so `weekday`, `hour`, and time-of-day arithmetic mirror Python
  `datetime` semantics (`Int.emod`/`Int.ediv` match Python `%`/`//` on a positive
  modulus).
* Times of day (preference bounds, working hours) are minutes after midnight,
  exactly what the normalized `HH:MM` strings of the source denote.
* Python floats that only ever enter comparisons (confidence, scores) are modelled
  as rationals.
* Pandas calendars are lists of busy intervals; dict iteration order is list order.
-/

namespace MultiAgent

/-- Minutes in a day. -/
def minutesPerDay : Int := 1440

/-- Time of day (minutes after midnight) of an absolute minute timestamp;
mirrors `datetime.time()`. -/
def timeOfDay (t : Int) : Int := t.emod minutesPerDay

/-- Hour component of an absolute minute timestamp; mirrors `datetime.hour`. -/
def hourOf (t : Int) : Int := (t.emod minutesPerDay).ediv 60

/-- Day index (number of whole days since the epoch) of a timestamp;
mirrors `datetime.date()` for comparison purposes. -/
def dayIndex (t : Int) : Int := t.ediv minutesPerDay

/-- Weekday of a timestamp, 0 = Monday .. 6 = Sunday (the epoch is a Monday);
mirrors `datetime.weekday()`. -/
def weekday (t : Int) : Int := (t.ediv minutesPerDay).emod 7

/-- `ParticipantPreferences` from `config/models.py`.  The pydantic validator
normalizes `no_meetings_before`/`no_meetings_after` to `HH:MM` strings; here they
are minutes after midnight.  `max_meetings_per_day` and `preferred_max_duration`
are validated `gt=0`, so Python truthiness tests coincide with `Option.isSome`. -/
structure ParticipantPreferences where
  no_meetings_before : Option Int := none
  no_meetings_after : Option Int := none
  prefer_morning : Bool := false
  prefer_afternoon : Bool := false
  avoid_lunch_time : Bool := false
  max_meetings_per_day : Option Int := none
  preferred_max_duration : Option Int := none
deriving DecidableEq

/-- One busy calendar entry (a row of the pandas calendar DataFrame). -/
structure BusyInterval where
  start_time : Int
  end_time : Int
deriving DecidableEq

/-- A participant's calendar: the list of busy intervals. -/
abbrev Calendar := List BusyInterval

/-- `MeetingSchedule` from `config/models.py`.  `schedule_day` is an absolute
minute timestamp (normally midnight-normalized by the validator, but strategy
code may assign a full datetime to it); working hours are minutes after
midnight. -/
structure MeetingSchedule where
  schedule_day : Int
  default_duration : Int
  working_hours_start : Int
  working_hours_end : Int
  time_slot_interval : Int
  alternative_durations : List Int
  max_alternative_days : Nat
deriving DecidableEq

/-- `SlotInfo` from `config/models.py`, restricted to the fields the core logic
reads (`start_time`, `end_time`, `duration_minutes`, `confidence`).  The
free-text/notes fields never influence control flow and are omitted. -/
structure SlotInfo where
  start_time : Int
  end_time : Int
  duration_minutes : Int
  confidence : ℚ
deriving DecidableEq

/-- `NegotiationOutcome` from `config/models.py`. -/
inductive NegotiationOutcome where
  | OPTIMAL_FOUND
  | COMPROMISE_PROPOSED
  | IMPOSSIBLE
deriving DecidableEq

/-- `NegotiationStrategy` from `config/models.py`: an int enum
NONE=0 < DURATION_ADJUSTMENT=1 < TOD_SHIFTING=2 < ALTERNATIVE_DAY=3
< RELAX_CONSTRAINTS=4. -/
inductive NegotiationStrategy where
  | NONE
  | DURATION_ADJUSTMENT
  | TOD_SHIFTING
  | ALTERNATIVE_DAY
  | RELAX_CONSTRAINTS
deriving DecidableEq

/-- Integer value of a `NegotiationStrategy`, as in the Python int enum. -/
def NegotiationStrategy.ord : NegotiationStrategy → Nat
  | .NONE => 0
  | .DURATION_ADJUSTMENT => 1
  | .TOD_SHIFTING => 2
  | .ALTERNATIVE_DAY => 3
  | .RELAX_CONSTRAINTS => 4

/-- `NegotiationResult` from `config/models.py` (the free-text `reasoning`
field is omitted: it never influences control flow). -/
structure NegotiationResult where
  outcome : NegotiationOutcome
  proposed_schedule : Option MeetingSchedule
  selected_slot : Option SlotInfo
  alternative_suggestions : List SlotInfo
  strategy_choose : NegotiationStrategy
deriving DecidableEq

/-- Stable insertion of a slot into a list sorted by decreasing confidence:
the inserted element goes before the first element whose confidence is not
larger, which reproduces the stable order of Python
`list.sort(key=confidence, reverse=True)`. -/
def insertByConfDesc (x : SlotInfo) : List SlotInfo → List SlotInfo
  | [] => [x]
  | y :: ys => if y.confidence ≤ x.confidence then x :: y :: ys else y :: insertByConfDesc x ys

/-- Stable sort by decreasing confidence, modelling
`slots.sort(key=lambda s: s.confidence, reverse=True)`. -/
def sortByConfDesc : List SlotInfo → List SlotInfo
  | [] => []
  | x :: xs => insertByConfDesc x (sortByConfDesc xs)

theorem mem_insertByConfDesc {s x : SlotInfo} {l : List SlotInfo} :
    s ∈ insertByConfDesc x l ↔ s = x ∨ s ∈ l := by
  induction l with
  | nil => simp [insertByConfDesc]
  | cons y ys ih =>
      by_cases h : y.confidence ≤ x.confidence
      · simp [insertByConfDesc, h]
      · simp [insertByConfDesc, h, ih]
        tauto

theorem mem_sortByConfDesc {s : SlotInfo} {l : List SlotInfo} :
    s ∈ sortByConfDesc l ↔ s ∈ l := by
  induction l with
  | nil => simp [sortByConfDesc]
  | cons x xs ih => simp [sortByConfDesc, mem_insertByConfDesc, ih]

theorem head_max_sortByConfDesc {l rest : List SlotInfo} {b : SlotInfo}
    (h : sortByConfDesc l = b :: rest) : ∀ s ∈ l, s.confidence ≤ b.confidence := by
  induction l generalizing b rest with
  | nil => simp [sortByConfDesc] at h
  | cons x xs ih =>
      simp only [sortByConfDesc] at h
      rcases hxs : sortByConfDesc xs with _ | ⟨c, cs⟩
      · rw [hxs] at h
        simp only [insertByConfDesc, List.cons.injEq] at h
        intro s hs
        rcases List.mem_cons.mp hs with hs | hs
        · simp [hs, ← h.1]
        · have : s ∈ sortByConfDesc xs := mem_sortByConfDesc.mpr hs
          rw [hxs] at this
          simp at this
      · rw [hxs] at h
        by_cases hc : c.confidence ≤ x.confidence
        · rw [insertByConfDesc, if_pos hc] at h
          obtain ⟨h1, _⟩ := List.cons.inj h
          intro s hs
          rcases List.mem_cons.mp hs with hs | hs
          · simp [hs, ← h1]
          · have := ih hxs s hs
            rw [← h1]
            exact le_trans this hc
        · rw [insertByConfDesc, if_neg hc] at h
          obtain ⟨h1, _⟩ := List.cons.inj h
          push_neg at hc
          intro s hs
          rcases List.mem_cons.mp hs with hs | hs
          · rw [hs, ← h1]
            exact le_of_lt hc
          · rw [← h1]
            exact ih hxs s hs

theorem head_mem_sortByConfDesc {l rest : List SlotInfo} {b : SlotInfo}
    (h : sortByConfDesc l = b :: rest) : b ∈ l := by
  have : b ∈ sortByConfDesc l := by
    rw [h]; exact List.mem_cons_self b rest
  exact mem_sortByConfDesc.mp this

theorem tail_subset_sortByConfDesc {l rest : List SlotInfo} {b : SlotInfo}
    (h : sortByConfDesc l = b :: rest) : ∀ s ∈ rest, s ∈ l := by
  intro s hs
  have : s ∈ sortByConfDesc l := by
    rw [h]; exact List.mem_cons_of_mem b hs
  exact mem_sortByConfDesc.mp this

/-! ### Schedule analyst: `_generate_time_slots` (schedule_analyst.py 137-174)

The Python method is a `while current_time < end_date` loop whose weekday branch
runs an inner `while current_time + duration <= end_date` loop appending
`(current_time, current_time + min_slot_duration)` and advancing by
`min_slot_duration`; the weekend branch breaks.  The inner loop always
terminates (the step is positive), but the outer loop has no progress when the
inner loop exits with `current_time < end_date` still true, so the whole method
need not terminate; the outer loop is therefore modelled with explicit fuel,
`none` meaning the iteration budget was exhausted without the loop ending. -/

/-- Inner `while current_time + duration <= end_date` loop of
`_generate_time_slots`: returns the appended slots and the final value of
`current_time`. -/
def innerSlotLoop (end_date duration step : Int) (hdur : 0 < duration)
    (hstep : 0 < step) (current : Int) : List (Int × Int) × Int :=
  if _hfit : current + duration ≤ end_date then
    let r := innerSlotLoop end_date duration step hdur hstep (current + step)
    ((current, current + step) :: r.1, r.2)
  else
    ([], current)
termination_by (end_date - current).toNat
decreasing_by
  have h1 : current < end_date := by omega
  omega

/-- Outer `while current_time < end_date` loop of `_generate_time_slots`,
with fuel bounding the number of outer iterations. -/
def generateLoop (end_date duration step : Int) (hdur : 0 < duration)
    (hstep : 0 < step) : Nat → Int → List (Int × Int) → Option (List (Int × Int))
  | 0, _, _ => none
  | fuel + 1, current, acc =>
      if current < end_date then
        if weekday current < 5 then
          let r := innerSlotLoop end_date duration step hdur hstep current
          generateLoop end_date duration step hdur hstep fuel r.2 (acc ++ r.1)
        else
          some acc
      else
        some acc

/-- `_generate_time_slots(start_date, end_date, duration)` with slot step
`min_slot_duration`, run with the given outer-loop fuel. -/
def generate_time_slots (start_date end_date duration step : Int) (hdur : 0 < duration)
    (hstep : 0 < step) (fuel : Nat) : Option (List (Int × Int)) :=
  generateLoop end_date duration step hdur hstep fuel start_date []

/-! ### Schedule analyst: `_filter_available_slots` (schedule_analyst.py 176-210) -/

/-- The pandas conflict test of `_filter_available_slots`:
`busy_df[(busy_df['start_time'] < slot_end) & (busy_df['end_time'] > slot_start)]`
is nonempty. -/
def hasConflict (busy : List BusyInterval) (slot : Int × Int) : Bool :=
  busy.any fun b => b.start_time < slot.2 && b.end_time > slot.1

/-- `_filter_available_slots(potential_slots, busy_df)`: if the busy frame is
empty all slots pass, otherwise a slot survives exactly when no busy interval
conflicts with it. -/
def filter_available_slots (potential_slots : List (Int × Int))
    (busy : List BusyInterval) : List (Int × Int) :=
  if busy = [] then potential_slots
  else potential_slots.filter fun s => !hasConflict busy s

/-! ### Schedule analyst: `_calculate_slot_score_with_notes`
(schedule_analyst.py 282-501), score component only (the notes list never
influences any decision). -/

/-- Count of calendar entries on the same date as the slot
(`calendar['start_time'].dt.date == slot_date`). -/
def sameDayMeetingCount (cal : Calendar) (slot_start : Int) : Nat :=
  (cal.filter fun b => dayIndex b.start_time = dayIndex slot_start).length

/-- The back-to-back test of the scorer: some meeting ends within 15 minutes
before the slot starts, or starts within 15 minutes after the slot ends. -/
def hasCloseMeeting (cal : Calendar) (slot_start slot_end : Int) : Bool :=
  cal.any fun b =>
    (b.end_time > slot_start - 15 && b.end_time ≤ slot_start) ||
    (b.start_time ≥ slot_end && b.start_time < slot_end + 15)

/-- `_calculate_slot_score_with_notes` for one participant: base 0.5 with the
additive adjustments of the source, clamped to [0, 1] at the end.  The
`no_meetings_before`/`no_meetings_after` bounds are compared by hour only
(`int(bound.split(':')[0])` against `slot_start.hour` / `slot_end.hour`). -/
def calculate_slot_score (slot_start slot_end : Int) (duration : Int)
    (prefs : ParticipantPreferences) (cal : Calendar) : ℚ :=
  let s0 : ℚ := 0.5
  let s1 := match prefs.no_meetings_before with
    | none => s0
    | some b => if hourOf slot_start < b.ediv 60 then s0 - 0.3 else s0
  let s2 := match prefs.no_meetings_after with
    | none => s1
    | some a => if hourOf slot_end > a.ediv 60 then s1 - 0.3 else s1
  let s3 := if prefs.prefer_morning then
      (if 6 ≤ hourOf slot_start ∧ hourOf slot_start < 12 then s2 + 0.2 else s2)
    else s2
  let s4 := if prefs.prefer_afternoon then
      (if 13 ≤ hourOf slot_start ∧ hourOf slot_start < 18 then s3 + 0.2 else s3)
    else s3
  let s5 := if prefs.avoid_lunch_time then
      (if (12 ≤ hourOf slot_start ∧ hourOf slot_start < 13) ∨
          (12 < hourOf slot_end ∧ hourOf slot_end ≤ 13) then s4 - 0.2 else s4)
    else s4
  let s6 := match prefs.preferred_max_duration with
    | none => s5
    | some m => if duration ≤ m then s5 + 0.1 else s5
  let s7 := if cal = [] then s6
    else
      let cnt := sameDayMeetingCount cal slot_start
      let s6a := match prefs.max_meetings_per_day with
        | some cap => if (cap : Int) ≤ (cnt : Int) then s6 - 0.3
            else if 4 ≤ cnt then s6 - 0.2
            else if 2 ≤ cnt then s6 - 0.1
            else s6
        | none => if 4 ≤ cnt then s6 - 0.2
            else if 2 ≤ cnt then s6 - 0.1
            else s6
      if hasCloseMeeting cal slot_start slot_end then s6a - 0.1 else s6a
  max 0 (min s7 1)

/-! ### Negotiation specialist (negotiation_specialist.py)

Participant data (`participants: dict[str, dict]`, iterated in insertion order)
is a list of preference/calendar pairs; participant ids never influence the
logic. -/

/-- One participant's data as seen by the negotiation engine. -/
structure Participant where
  preferences : ParticipantPreferences
  calendar : Calendar
deriving DecidableEq

/-- Lunch window test of `_slot_respects_all` and of the strategy gates:
`lunch[0] <= st.time() < lunch[1] or lunch[0] < et.time() <= lunch[1]`
with lunch = (12:00, 13:00), on times of day in minutes. -/
def lunchConflict (st et : Int) : Bool :=
  (720 ≤ timeOfDay st && timeOfDay st < 780) || (720 < timeOfDay et && timeOfDay et ≤ 780)

/-- Daily-cap test of `_slot_respects_all`: with a cap set and a nonempty
calendar, the slot is rejected when the number of entries starting on the
slot's day reaches the cap.  The day window is midnight-to-midnight around the
slot start (`st.replace(hour=0, minute=0, ...)`). -/
def dailyCapExceeded (pr : ParticipantPreferences) (cal : Calendar) (st : Int) : Bool :=
  match pr.max_meetings_per_day with
  | none => false
  | some cap =>
      if cal = [] then false
      else
        let day_start := dayIndex st * minutesPerDay
        let todays := (cal.filter fun b =>
          day_start ≤ b.start_time && b.start_time < day_start + minutesPerDay).length
        cap ≤ (todays : Int)

/-- `_slot_respects_all(slot, prefs, calendars)`: the strict hard gate.
Each participant can reject the slot for: starting before their
`no_meetings_before`, ending after their `no_meetings_after` (full `HH:MM`
comparison on times of day), not matching a stated morning/afternoon
preference, overlapping lunch when `avoid_lunch_time` is set, exceeding
`preferred_max_duration`, or reaching their daily meeting cap. -/
def slot_respects_all (slot : SlotInfo) (parts : List Participant) : Bool :=
  let st := slot.start_time
  let et := slot.end_time
  let dur := slot.duration_minutes
  parts.all fun p =>
    let pr := p.preferences
    (match pr.no_meetings_before with
      | none => true
      | some b => !(timeOfDay st < b)) &&
    (match pr.no_meetings_after with
      | none => true
      | some a => !(timeOfDay et > a)) &&
    (!pr.prefer_morning || (6 ≤ hourOf st && hourOf st < 12)) &&
    (!pr.prefer_afternoon || (13 ≤ hourOf st && hourOf st < 18)) &&
    (!pr.avoid_lunch_time || !lunchConflict st et) &&
    (match pr.preferred_max_duration with
      | none => true
      | some m => !(dur > m)) &&
    !dailyCapExceeded pr p.calendar st

/-- `_strategy_duration_adjust(slots, prefs)` (negotiation_specialist.py
266-343): reduce the duration to the smallest `preferred_max_duration` if that
is below the schedule's current default, rebuild the slots that are long
enough at the reduced duration, and pick the highest-confidence one. -/
def strategy_duration_adjust (initial : MeetingSchedule) (slots : List SlotInfo)
    (prefs : List ParticipantPreferences) : Option NegotiationResult :=
  let caps := prefs.filterMap (·.preferred_max_duration)
  match caps with
  | [] => none
  | c :: cs =>
      let smallest_cap := cs.foldl min c
      if initial.default_duration ≤ smallest_cap then none
      else
        let new_sched := { initial with default_duration := smallest_cap }
        let compat := (slots.filter fun s => smallest_cap ≤ s.duration_minutes).map
          fun s => { s with duration_minutes := smallest_cap }
        match sortByConfDesc compat with
        | [] => none
        | best :: rest =>
            some { outcome := .COMPROMISE_PROPOSED
                   proposed_schedule := some new_sched
                   selected_slot := some best
                   alternative_suggestions := rest.take 2
                   strategy_choose := .DURATION_ADJUSTMENT }

/-- The relaxed gate of `_strategy_time_shift` (negotiation_specialist.py
373-392).  NOTE: the source parses both `st` and `et` from `slot.start_time`
(line 375), so the `no_meetings_after` and lunch checks that are written
against `et` actually test the slot's START time; this embedding reproduces
that. -/
def timeShiftOk (prefs : List ParticipantPreferences) (slot : SlotInfo) : Bool :=
  let st := slot.start_time
  let et := slot.start_time
  prefs.all fun pr =>
    (match pr.no_meetings_before with
      | none => true
      | some b => !(timeOfDay st < b)) &&
    (match pr.no_meetings_after with
      | none => true
      | some a => !(timeOfDay et > a)) &&
    (!pr.avoid_lunch_time || !lunchConflict st et) &&
    (match pr.preferred_max_duration with
      | none => true
      | some m => !(slot.duration_minutes > m))

/-- `_strategy_time_shift(slots, prefs)` (negotiation_specialist.py 346-422):
drop the morning/afternoon preference, keep the other explicit checks, pick
the highest-confidence viable slot and move `schedule_day` to its start. -/
def strategy_time_shift (initial : MeetingSchedule) (slots : List SlotInfo)
    (prefs : List ParticipantPreferences) : Option NegotiationResult :=
  let viable := slots.filter (timeShiftOk prefs)
  match sortByConfDesc viable with
  | [] => none
  | best :: rest =>
      let new_sched := { initial with schedule_day := best.start_time }
      some { outcome := .COMPROMISE_PROPOSED
             proposed_schedule := some new_sched
             selected_slot := some best
             alternative_suggestions := rest.take 2
             strategy_choose := .TOD_SHIFTING }

/-- Daily-cap test of `_strategy_alternative_day` for one candidate day: a
participant with a cap and a nonempty calendar blocks the day when the entries
starting in `[day, day + 1 day)` reach the cap. -/
def altDayOk (parts : List Participant) (day : Int) : Bool :=
  parts.all fun p =>
    match p.preferences.max_meetings_per_day with
    | none => true
    | some cap =>
        if p.calendar = [] then true
        else
          let todays := (p.calendar.filter fun b =>
            day ≤ b.start_time && b.start_time < day + minutesPerDay).length
          !(cap ≤ (todays : Int))

/-- Candidate days of `_strategy_alternative_day`: offsets 1..max, each with
sign +1 then -1, around the base day. -/
def altDayCandidates (base : Int) (maxAlt : Nat) : List Int :=
  (List.range maxAlt).flatMap fun i =>
    [base + (i + 1) * minutesPerDay, base - (i + 1) * minutesPerDay]

/-- `_strategy_alternative_day(slots, prefs, calendars)` (negotiation_specialist.py
424-524): disabled when `max_alternative_days == 0`; otherwise the first
non-weekend candidate day on which no participant's daily cap is exceeded is
proposed as the new `schedule_day`, with no slot selected. -/
def strategy_alternative_day (initial : MeetingSchedule)
    (parts : List Participant) : Option NegotiationResult :=
  if initial.max_alternative_days = 0 then none
  else
    match (altDayCandidates initial.schedule_day initial.max_alternative_days).find?
        (fun day => weekday day < 5 && altDayOk parts day) with
    | none => none
    | some day =>
        let new_sched := { initial with schedule_day := day }
        some { outcome := .COMPROMISE_PROPOSED
               proposed_schedule := some new_sched
               selected_slot := none
               alternative_suggestions := []
               strategy_choose := .ALTERNATIVE_DAY }

/-- The hard-checks gate of `_strategy_relax_hours` (negotiation_specialist.py
553-588): before/after bounds, lunch avoidance and duration caps stay active
(here `et` really is the slot's end time, unlike `timeShiftOk`). -/
def relaxHoursOk (prefs : List ParticipantPreferences) (slot : SlotInfo) : Bool :=
  let st := slot.start_time
  let et := slot.end_time
  prefs.all fun pr =>
    (match pr.no_meetings_before with
      | none => true
      | some b => !(timeOfDay st < b)) &&
    (match pr.no_meetings_after with
      | none => true
      | some a => !(timeOfDay et > a)) &&
    (!pr.avoid_lunch_time || !lunchConflict st et) &&
    (match pr.preferred_max_duration with
      | none => true
      | some m => !(slot.duration_minutes > m))

/-- `_strategy_relax_hours(slots, prefs)` (negotiation_specialist.py 527-626):
keep the slots passing all hard checks, pick the highest-confidence one, and
widen the working hours by 30 minutes on each side (`strftime("%H:%M")` wraps
within the day, hence the `emod`). -/
def strategy_relax_hours (initial : MeetingSchedule) (slots : List SlotInfo)
    (prefs : List ParticipantPreferences) : Option NegotiationResult :=
  let widened_slots := slots.filter (relaxHoursOk prefs)
  match sortByConfDesc widened_slots with
  | [] => none
  | best :: rest =>
      let new_start := (initial.working_hours_start - 30).emod minutesPerDay
      let new_end := (initial.working_hours_end + 30).emod minutesPerDay
      let new_sched := { initial with
        working_hours_start := new_start
        working_hours_end := new_end }
      some { outcome := .COMPROMISE_PROPOSED
             proposed_schedule := some new_sched
             selected_slot := some best
             alternative_suggestions := rest.take 2
             strategy_choose := .RELAX_CONSTRAINTS }

/-- Ladder guard for `_strategy_duration_adjust`:
`previous_strategy < DURATION_ADJUSTMENT or previous_strategy >= ALTERNATIVE_DAY`. -/
def durationGuard (prev : NegotiationStrategy) : Bool :=
  prev.ord < 1 || 3 ≤ prev.ord

/-- Ladder guard for `_strategy_time_shift`:
`previous_strategy < TOD_SHIFTING or previous_strategy >= ALTERNATIVE_DAY`. -/
def todGuard (prev : NegotiationStrategy) : Bool :=
  prev.ord < 2 || 3 ≤ prev.ord

/-- Ladder guard for `_strategy_alternative_day`:
`previous_strategy < ALTERNATIVE_DAY`. -/
def altDayGuard (prev : NegotiationStrategy) : Bool :=
  prev.ord < 3

/-- Ladder guard for `_strategy_relax_hours`:
`previous_strategy < RELAX_CONSTRAINTS`. -/
def relaxGuard (prev : NegotiationStrategy) : Bool :=
  prev.ord < 4

/-- The IMPOSSIBLE result built when every strategy is exhausted
(negotiation_specialist.py 157-163). -/
def impossibleResult : NegotiationResult :=
  { outcome := .IMPOSSIBLE
    proposed_schedule := none
    selected_slot := none
    alternative_suggestions := []
    strategy_choose := .NONE }

/-- `negotiate_schedule(available_slots, participants, min_score,
previous_strategy)` (negotiation_specialist.py 26-167).  First the strict
filter; if any slot survives, the highest-confidence survivor is returned at
once (OPTIMAL_FOUND when its confidence reaches `min_score`) with up to two
runners-up.  Otherwise the four relaxation strategies run in enum order, each
behind its guard on `previous_strategy`, and the first non-None result is
returned; if all fail the IMPOSSIBLE result is returned. -/
def negotiate_schedule (initial : MeetingSchedule) (available_slots : List SlotInfo)
    (parts : List Participant) (min_score : ℚ)
    (previous_strategy : NegotiationStrategy) : NegotiationResult :=
  let prefs := parts.map (·.preferences)
  let ok_slots := available_slots.filter fun s => slot_respects_all s parts
  match sortByConfDesc ok_slots with
  | best :: rest =>
      { outcome := if min_score ≤ best.confidence then .OPTIMAL_FOUND
                   else .COMPROMISE_PROPOSED
        proposed_schedule := some initial
        selected_slot := some best
        alternative_suggestions := rest.take 2
        strategy_choose := .NONE }
  | [] =>
      let r1 := if durationGuard previous_strategy then
          strategy_duration_adjust initial available_slots prefs else none
      match r1 with
      | some r => r
      | none =>
          let r2 := if todGuard previous_strategy then
              strategy_time_shift initial available_slots prefs else none
          match r2 with
          | some r => r
          | none =>
              let r3 := if altDayGuard previous_strategy then
                  strategy_alternative_day initial parts else none
              match r3 with
              | some r => r
              | none =>
                  let r4 := if relaxGuard previous_strategy then
                      strategy_relax_hours initial available_slots prefs else none
                  match r4 with
                  | some r => r
                  | none => impossibleResult

/-! ### Round controller fallback (`coordinator.py` `on_messages`, lines 270-296)

`all_suggestions` collects, over all rounds, each round's selected slot and
alternative suggestions.  When no round was optimal the fallback picks
`most_common if most_common['confidence'] > highest_confidence['confidence']
else highest_confidence`, where `most_common` is `Counter(...).most_common(1)`
on the JSON-serialized slots (value equality, ties resolved by first
insertion) and `highest_confidence` is the head of the stable sort by
confidence descending (ties resolved by list position). -/

/-- `Counter(suggestion_strings).most_common(1)[0]`: the suggestion with the
largest multiplicity; among equal multiplicities the one whose first
occurrence comes earliest wins (Counter preserves insertion order and
`most_common` sorts stably by count). -/
def mostCommonSuggestion : List SlotInfo → Option SlotInfo
  | [] => none
  | x :: xs =>
      some ((x :: xs).foldl
        (fun best y => if (x :: xs).count best < (x :: xs).count y then y else best) x)

/-- `sorted(all_suggestions, key=lambda x: x['confidence'], reverse=True)[0]`:
the earliest suggestion of maximal confidence (Python sort is stable). -/
def highestConfidenceSuggestion : List SlotInfo → Option SlotInfo
  | [] => none
  | x :: xs =>
      some (xs.foldl (fun best y => if best.confidence < y.confidence then y else best) x)

/-- The fallback slot selection of `on_messages`: `None` when nothing was
suggested, otherwise the modal suggestion if its confidence strictly exceeds
the maximal one, else the highest-confidence suggestion. -/
def fallbackBestSlot (all_suggestions : List SlotInfo) : Option SlotInfo :=
  match mostCommonSuggestion all_suggestions,
        highestConfidenceSuggestion all_suggestions with
  | some mc, some hc =>
      some (if hc.confidence < mc.confidence then mc else hc)
  | _, _ => none

/-! ### Helper lemmas -/

theorem sortByConfDesc_eq_nil {l : List SlotInfo} : sortByConfDesc l = [] ↔ l = [] := by
  constructor
  · intro h
    cases l with
    | nil => rfl
    | cons x xs =>
        exfalso
        have : x ∈ sortByConfDesc (x :: xs) := mem_sortByConfDesc.mpr (List.mem_cons_self x xs)
        rw [h] at this
        simp at this
  · intro h; rw [h]; rfl

theorem innerSlotLoop_stop {end_date duration step : Int} {hdur : 0 < duration}
    {hstep : 0 < step} {current : Int} (h : ¬(current + duration ≤ end_date)) :
    innerSlotLoop end_date duration step hdur hstep current = ([], current) := by
  rw [innerSlotLoop]
  simp [h]

theorem innerSlotLoop_step {end_date duration step : Int} {hdur : 0 < duration}
    {hstep : 0 < step} {current : Int} (h : current + duration ≤ end_date) :
    innerSlotLoop end_date duration step hdur hstep current =
      ((current, current + step) ::
         (innerSlotLoop end_date duration step hdur hstep (current + step)).1,
       (innerSlotLoop end_date duration step hdur hstep (current + step)).2) := by
  rw [innerSlotLoop]
  simp [h]

/-! ### C8: `_filter_available_slots` is a monotonic filter -/

/-- C8: `filter_conflicts` is monotonic: for every candidate list and
busy-interval list, the output is a subsequence of the input containing
exactly the candidates with no busy interval satisfying
`busy.start < slot.end AND busy.end > slot.start`; removing a busy interval
never shrinks the accepted set; and an empty busy set passes every candidate
through unchanged. -/
theorem filter_available_slots_spec :
    (∀ (potential : List (Int × Int)) (busy : List BusyInterval),
       (filter_available_slots potential busy).Sublist potential) ∧
    (∀ (potential : List (Int × Int)) (busy : List BusyInterval) (x : Int × Int),
       x ∈ filter_available_slots potential busy ↔
         x ∈ potential ∧ ∀ b ∈ busy, ¬(b.start_time < x.2 ∧ b.end_time > x.1)) ∧
    (∀ (potential : List (Int × Int)) (busy : List BusyInterval) (b : BusyInterval)
       (x : Int × Int), x ∈ filter_available_slots potential busy →
       x ∈ filter_available_slots potential (busy.erase b)) ∧
    (∀ potential : List (Int × Int), filter_available_slots potential [] = potential) := by
  have hmem : ∀ (potential : List (Int × Int)) (busy : List BusyInterval) (x : Int × Int),
      x ∈ filter_available_slots potential busy ↔
        x ∈ potential ∧ ∀ b ∈ busy, ¬(b.start_time < x.2 ∧ b.end_time > x.1) := by
    intro potential busy x
    unfold filter_available_slots
    by_cases hb : busy = []
    · simp [hb]
    · simp only [if_neg hb, List.mem_filter, hasConflict, List.any_eq_true]
      constructor
      · rintro ⟨hx, hc⟩
        refine ⟨hx, ?_⟩
        intro b hbb hcontra
        rw [Bool.not_eq_true', List.any_eq_false] at hc
        have hfalse := hc b hbb
        have hne : ¬((decide (b.start_time < x.2) && decide (b.end_time > x.1)) = true) := by
          simp [hfalse]
        simp only [Bool.and_eq_true, decide_eq_true_eq] at hne
        exact hne ⟨hcontra.1, hcontra.2⟩
      · rintro ⟨hx, hnc⟩
        refine ⟨hx, ?_⟩
        simp only [Bool.not_eq_true']
        rw [List.any_eq_false]
        intro b hbb
        simp only [Bool.and_eq_true, decide_eq_true_eq, not_and]
        intro h1 h2
        exact hnc b hbb ⟨h1, h2⟩
  refine ⟨?_, hmem, ?_, ?_⟩
  · intro potential busy
    unfold filter_available_slots
    by_cases hb : busy = []
    · simp [hb]
    · simp only [if_neg hb]
      exact List.filter_sublist potential
  · intro potential busy b x hx
    rw [hmem] at hx ⊢
    exact ⟨hx.1, fun b' hb' => hx.2 b' (List.erase_subset b busy hb')⟩
  · intro potential
    simp [filter_available_slots]

/-- Witness for C8: the candidate (0, 30) survives the busy list
[(40, 50)] and still survives after erasing that busy interval. -/
theorem filter_available_slots_spec_witness :
    ((0, 30) : Int × Int) ∈ filter_available_slots [(0, 30)] [⟨40, 50⟩] ∧
    ((0, 30) : Int × Int) ∈ filter_available_slots [(0, 30)] ([⟨40, 50⟩].erase ⟨40, 50⟩) := by
  have h1 : ((0, 30) : Int × Int) ∈ filter_available_slots [(0, 30)] [⟨40, 50⟩] := by
    exact (filter_available_slots_spec.2.1 [(0, 30)] [⟨40, 50⟩] (0, 30)).mpr
      (by constructor
          · simp
          · intro b hb
            simp at hb
            rw [hb]
            decide)
  exact ⟨h1, filter_available_slots_spec.2.2.1 [(0, 30)] [⟨40, 50⟩] ⟨40, 50⟩ (0, 30) h1⟩

/-! ### C2 and C3: `_generate_time_slots` -/

/-- C2 (code bug): `_generate_time_slots` appends
`(current_time, current_time + min_slot_duration)`, so for a requested
duration different from the slot step the generated candidates do NOT satisfy
`end = start + duration`, contradicting both the spec and the method's own
docstring ("each generated time slot ... lasts for the specified duration").
Concrete run: Monday 09:00-10:00 window (minutes 540-600), duration 15,
min_slot_duration 30 terminates and yields two slots whose ends are
start + 30, not start + 15. -/
theorem generate_time_slots_end_ne_start_plus_duration :
    generate_time_slots 540 600 15 30 (by norm_num) (by norm_num) 2 =
      some [(540, 570), (570, 600)] ∧
    ∀ s ∈ [((540 : Int), (570 : Int)), (570, 600)], s.2 ≠ s.1 + 15 := by
  constructor
  · have i3 : innerSlotLoop 600 15 30 (by norm_num) (by norm_num) 600 = ([], 600) :=
      innerSlotLoop_stop (by norm_num)
    have i2 : innerSlotLoop 600 15 30 (by norm_num) (by norm_num) 570 =
        ([(570, 600)], 600) := by
      rw [innerSlotLoop_step (by norm_num)]
      norm_num [i3]
    have i1 : innerSlotLoop 600 15 30 (by norm_num) (by norm_num) 540 =
        ([(540, 570), (570, 600)], 600) := by
      rw [innerSlotLoop_step (by norm_num)]
      norm_num [i2]
    show generateLoop 600 15 30 (by norm_num) (by norm_num) 2 540 [] = _
    rw [generateLoop]
    rw [if_pos (by norm_num), if_pos (by decide)]
    rw [i1]
    rw [generateLoop]
    rw [if_neg (by norm_num)]
    rfl
  · decide

/-- C3 (code bug): when the duration cannot fit before the working-hours end,
`_generate_time_slots` does not return an empty list: its outer `while` loop
makes no progress and never terminates.  Concretely, starting Monday 16:30
(minute 990) with end 17:00 (minute 1020) and duration 60, every outer-loop
fuel is exhausted with the loop still running. -/
theorem generate_time_slots_diverges_when_duration_cannot_fit :
    ∀ fuel : Nat,
      generate_time_slots 990 1020 60 30 (by norm_num) (by norm_num) fuel = none := by
  have key : ∀ (fuel : Nat) (acc : List (Int × Int)),
      generateLoop 1020 60 30 (by norm_num) (by norm_num) fuel 990 acc = none := by
    intro fuel
    induction fuel with
    | zero => intro acc; rfl
    | succ n ih =>
        intro acc
        rw [generateLoop]
        rw [if_pos (by norm_num), if_pos (by decide)]
        rw [innerSlotLoop_stop (by norm_num)]
        show generateLoop 1020 60 30 (by norm_num) (by norm_num) n 990 (acc ++ []) = none
        rw [List.append_nil]
        exact ih acc
  intro fuel
  exact key fuel []

/-! ### C6: `_strategy_time_shift` checks the end-time bounds on the start time -/

/-- A concrete schedule used for instantiating theorems: Monday of the epoch
week, 60-minute default duration, working hours 09:00-17:00, 30-minute slot
interval, default alternative durations, up to 3 alternative days. -/
def sampleSchedule : MeetingSchedule :=
  { schedule_day := 0
    default_duration := 60
    working_hours_start := 540
    working_hours_end := 1020
    time_slot_interval := 30
    alternative_durations := [15, 45, 60]
    max_alternative_days := 3 }

/-- C6 (code bug): `_strategy_time_shift` parses `et` from `slot.start_time`
(negotiation_specialist.py line 375), so its relaxed gate tests the
`no_meetings_after` bound against the slot's START time.  A slot Monday
11:00-13:30 with a participant bound `no_meetings_after = 13:00` (minute 780)
passes the gate and is selected, although its end exceeds the bound; the same
checks performed on the true end time (as `_strategy_relax_hours` does, lines
556-557) reject it. -/
theorem strategy_time_shift_end_bound_checked_on_start :
    timeOfDay 810 > 780 ∧
    timeShiftOk [{ no_meetings_after := some 780 }] ⟨660, 810, 150, 1⟩ = true ∧
    relaxHoursOk [{ no_meetings_after := some 780 }] ⟨660, 810, 150, 1⟩ = false ∧
    strategy_time_shift sampleSchedule [⟨660, 810, 150, 1⟩]
        [{ no_meetings_after := some 780 }] =
      some { outcome := .COMPROMISE_PROPOSED
             proposed_schedule := some { sampleSchedule with schedule_day := 660 }
             selected_slot := some ⟨660, 810, 150, 1⟩
             alternative_suggestions := []
             strategy_choose := .TOD_SHIFTING } := by
  refine ⟨by decide, by decide, by decide, ?_⟩
  decide

/-! ### C5: the round-controller fallback selection -/

/-- Any fold whose step keeps either the accumulator or the new element
produces the initial value or a list element. -/
theorem foldl_pick_mem {f : SlotInfo → SlotInfo → SlotInfo}
    (hf : ∀ b y, f b y = b ∨ f b y = y) :
    ∀ (l : List SlotInfo) (b : SlotInfo), l.foldl f b = b ∨ l.foldl f b ∈ l := by
  intro l
  induction l with
  | nil => intro b; left; rfl
  | cons y ys ih =>
      intro b
      rcases ih (f b y) with h | h
      · rcases hf b y with h2 | h2
        · left; rw [List.foldl_cons, h, h2]
        · right; rw [List.foldl_cons, h, h2]; exact List.mem_cons_self y ys
      · right
        rw [List.foldl_cons]
        exact List.mem_cons_of_mem y h

/-- The highest-confidence fold dominates its initial value and every list
element. -/
theorem foldl_pickHigher_max :
    ∀ (l : List SlotInfo) (b : SlotInfo),
      b.confidence ≤
        (l.foldl (fun best y => if best.confidence < y.confidence then y else best)
          b).confidence ∧
      ∀ y ∈ l, y.confidence ≤
        (l.foldl (fun best y => if best.confidence < y.confidence then y else best)
          b).confidence := by
  intro l
  induction l with
  | nil => intro b; exact ⟨le_refl _, by simp⟩
  | cons z zs ih =>
      intro b
      have hb : b.confidence ≤
          (if b.confidence < z.confidence then z else b).confidence := by
        split
        · exact le_of_lt (by assumption)
        · exact le_refl _
      have hz : z.confidence ≤
          (if b.confidence < z.confidence then z else b).confidence := by
        split
        · exact le_refl _
        · exact le_of_not_lt (by assumption)
      obtain ⟨ih1, ih2⟩ := ih (if b.confidence < z.confidence then z else b)
      refine ⟨le_trans hb (by simpa using ih1), ?_⟩
      intro y hy
      rcases List.mem_cons.mp hy with hy | hy
      · subst hy
        exact le_trans hz (by simpa using ih1)
      · simpa using ih2 y hy

/-- Slot X of the fallback scenario: suggested with confidence 0.55. -/
def slotX : SlotInfo := ⟨540, 570, 30, ⟨11, 20, by norm_num, by norm_num⟩⟩

/-- Slot Y of the fallback scenario: suggested with confidence 0.9. -/
def slotY : SlotInfo := ⟨600, 630, 30, ⟨9, 10, by norm_num, by norm_num⟩⟩

/-- C5: the fallback computes the modal suggestion and the highest-confidence
suggestion and keeps the modal one only when its confidence strictly exceeds
the highest one; since the modal suggestion is one of the suggestions its
confidence never exceeds the maximum, so the highest-confidence suggestion is
selected.  In particular, with slot X suggested twice at confidence 0.55 and
slot Y once at 0.9, Y is selected. -/
theorem fallback_selection_spec :
    (∀ (x : SlotInfo) (xs : List SlotInfo),
       ∃ mc hc, mostCommonSuggestion (x :: xs) = some mc ∧
         highestConfidenceSuggestion (x :: xs) = some hc ∧
         mc ∈ x :: xs ∧
         (∀ y ∈ x :: xs, y.confidence ≤ hc.confidence) ∧
         mc.confidence ≤ hc.confidence ∧
         fallbackBestSlot (x :: xs) = some hc) ∧
    fallbackBestSlot [slotX, slotX, slotY] = some slotY := by
  constructor
  · intro x xs
    have hpickF : ∀ b y : SlotInfo,
        (fun best z => if (x :: xs).count best < (x :: xs).count z then z else best) b y
          = b ∨
        (fun best z => if (x :: xs).count best < (x :: xs).count z then z else best) b y
          = y := by
      intro b y
      dsimp only
      split
      · exact Or.inr rfl
      · exact Or.inl rfl
    have hmem : ((x :: xs).foldl
        (fun best z => if (x :: xs).count best < (x :: xs).count z then z else best)
          x) ∈ x :: xs := by
      rcases foldl_pick_mem hpickF (x :: xs) x with h | h
      · rw [h]; exact List.mem_cons_self x xs
      · exact h
    obtain ⟨h1, h2⟩ := foldl_pickHigher_max xs x
    have hmax : ∀ y ∈ x :: xs, y.confidence ≤
        (xs.foldl (fun best y => if best.confidence < y.confidence then y else best)
          x).confidence := by
      intro y hy
      rcases List.mem_cons.mp hy with hy | hy
      · subst hy; exact h1
      · exact h2 y hy
    have hle := hmax _ hmem
    refine ⟨_, _, rfl, rfl, hmem, hmax, hle, ?_⟩
    simp only [fallbackBestSlot, mostCommonSuggestion, highestConfidenceSuggestion]
    rw [if_neg (not_lt.mpr hle)]
  · decide

/-- Witness for C5: the general fallback statement instantiated on the
two-element suggestion list [slotX, slotY]. -/
theorem fallback_selection_spec_witness :
    ∃ mc hc, mostCommonSuggestion [slotX, slotY] = some mc ∧
      highestConfidenceSuggestion [slotX, slotY] = some hc ∧
      mc ∈ [slotX, slotY] ∧
      (∀ y ∈ [slotX, slotY], y.confidence ≤ hc.confidence) ∧
      mc.confidence ≤ hc.confidence ∧
      fallbackBestSlot [slotX, slotY] = some hc :=
  fallback_selection_spec.1 slotX [slotY]

/-! ### C10: the soft score compares bound hours only, the strict filter
compares full times -/

/-- For a participant whose only preference is `no_meetings_before`, the soft
score is 0.5 minus the 0.3 penalty exactly when the slot's start HOUR is
before the bound's HOUR. -/
theorem score_before_hour_only (st et dur b : Int) :
    calculate_slot_score st et dur { no_meetings_before := some b } [] =
      if hourOf st < b.ediv 60 then (1/5 : ℚ) else 1/2 := by
  simp only [calculate_slot_score]
  norm_num
  split_ifs <;> norm_num

/-- For a participant whose only preference is `no_meetings_after`, the soft
score is 0.5 minus the 0.3 penalty exactly when the slot's end HOUR is after
the bound's HOUR. -/
theorem score_after_hour_only (st et dur a : Int) :
    calculate_slot_score st et dur { no_meetings_after := some a } [] =
      if a.ediv 60 < hourOf et then (1/5 : ℚ) else 1/2 := by
  simp only [calculate_slot_score]
  norm_num
  split_ifs <;> norm_num

/-- C10: in soft scoring the earliest/latest-bound penalties fire exactly on
hour-only comparisons (minutes of the bound and the slot are ignored), while
the strict filter compares full HH:MM times; hence for the bound 10:30
(minute 630) a 10:00-11:00 slot keeps the unpenalized score 0.5 although the
strict filter rejects it. -/
theorem soft_score_hour_only_vs_strict_filter :
    (∀ st et dur b : Int,
       calculate_slot_score st et dur { no_meetings_before := some b } [] =
         if hourOf st < b.ediv 60 then (1/5 : ℚ) else 1/2) ∧
    (∀ st et dur a : Int,
       calculate_slot_score st et dur { no_meetings_after := some a } [] =
         if a.ediv 60 < hourOf et then (1/5 : ℚ) else 1/2) ∧
    calculate_slot_score 600 660 60 { no_meetings_before := some 630 } [] = 1/2 ∧
    slot_respects_all ⟨600, 660, 60, 1⟩
      [⟨{ no_meetings_before := some 630 }, []⟩] = false := by
  refine ⟨score_before_hour_only, score_after_hour_only, ?_, by decide⟩
  have h1 : hourOf 600 = 10 := by decide
  have h2 : (630 : Int).ediv 60 = 10 := by decide
  rw [score_before_hour_only, h1, h2]
  norm_num

/-! ### C4: the strict-filter branch of `negotiate_schedule` -/

/-- When the sorted strict-filter survivors are nonempty, `negotiate_schedule`
returns the head as selected slot with the strict-branch record. -/
theorem negotiate_schedule_of_sorted_cons
    {initial : MeetingSchedule} {slots : List SlotInfo} {parts : List Participant}
    {min_score : ℚ} {prev : NegotiationStrategy} {best : SlotInfo} {rest : List SlotInfo}
    (h : sortByConfDesc (slots.filter fun s => slot_respects_all s parts) = best :: rest) :
    negotiate_schedule initial slots parts min_score prev =
      { outcome := if min_score ≤ best.confidence then .OPTIMAL_FOUND
                   else .COMPROMISE_PROPOSED
        proposed_schedule := some initial
        selected_slot := some best
        alternative_suggestions := rest.take 2
        strategy_choose := .NONE } := by
  unfold negotiate_schedule
  dsimp only
  rw [h]

/-- C4: whenever at least one input slot passes `_slot_respects_all`, the
result selects a strict-filter survivor of maximal confidence, its outcome is
OPTIMAL_FOUND exactly when that confidence reaches `min_score` (else
COMPROMISE_PROPOSED), it carries at most 2 runners-up (all of them strict
survivors), and no relaxation strategy contributes (`strategy_choose = NONE`,
schedule unchanged). -/
theorem negotiate_schedule_strict_branch :
    ∀ (initial : MeetingSchedule) (slots : List SlotInfo) (parts : List Participant)
      (min_score : ℚ) (prev : NegotiationStrategy),
      slots.filter (fun s => slot_respects_all s parts) ≠ [] →
      ∃ (best : SlotInfo) (rest : List SlotInfo),
        negotiate_schedule initial slots parts min_score prev =
          { outcome := if min_score ≤ best.confidence then .OPTIMAL_FOUND
                       else .COMPROMISE_PROPOSED
            proposed_schedule := some initial
            selected_slot := some best
            alternative_suggestions := rest.take 2
            strategy_choose := .NONE } ∧
        best ∈ slots ∧ slot_respects_all best parts = true ∧
        (∀ s ∈ slots, slot_respects_all s parts = true →
          s.confidence ≤ best.confidence) ∧
        (rest.take 2).length ≤ 2 ∧
        (∀ a ∈ rest.take 2, a ∈ slots ∧ slot_respects_all a parts = true) := by
  intro initial slots parts min_score prev hne
  rcases hs : sortByConfDesc (slots.filter fun s => slot_respects_all s parts) with
    _ | ⟨best, rest⟩
  · exact absurd (sortByConfDesc_eq_nil.mp hs) hne
  · have hbestf := head_mem_sortByConfDesc hs
    rw [List.mem_filter] at hbestf
    refine ⟨best, rest, negotiate_schedule_of_sorted_cons hs, hbestf.1, hbestf.2, ?_, ?_, ?_⟩
    · intro s hsl hok
      exact head_max_sortByConfDesc hs s (List.mem_filter.mpr ⟨hsl, hok⟩)
    · exact List.length_take_le 2 rest
    · intro a ha
      have : a ∈ slots.filter (fun s => slot_respects_all s parts) :=
        tail_subset_sortByConfDesc hs a (List.take_subset 2 rest ha)
      rw [List.mem_filter] at this
      exact this

/-- Witness for C4: one slot that trivially respects the (empty) participant
list is selected with OPTIMAL_FOUND. -/
theorem negotiate_schedule_strict_branch_witness :
    ∃ (best : SlotInfo) (rest : List SlotInfo),
      negotiate_schedule sampleSchedule [⟨540, 570, 30, 1⟩] [] 1 .NONE =
        { outcome := if (1 : ℚ) ≤ best.confidence then .OPTIMAL_FOUND
                     else .COMPROMISE_PROPOSED
          proposed_schedule := some sampleSchedule
          selected_slot := some best
          alternative_suggestions := rest.take 2
          strategy_choose := .NONE } ∧
      best ∈ [(⟨540, 570, 30, 1⟩ : SlotInfo)] ∧
      slot_respects_all best [] = true ∧
      (∀ s ∈ [(⟨540, 570, 30, 1⟩ : SlotInfo)], slot_respects_all s [] = true →
        s.confidence ≤ best.confidence) ∧
      (rest.take 2).length ≤ 2 ∧
      (∀ a ∈ rest.take 2, a ∈ [(⟨540, 570, 30, 1⟩ : SlotInfo)] ∧
        slot_respects_all a [] = true) :=
  negotiate_schedule_strict_branch sampleSchedule [⟨540, 570, 30, 1⟩] [] 1 .NONE
    (by decide)

/-! ### C9: strategies propose fresh schedules differing only in their target
fields -/

/-- C9: every strategy that proposes a change builds a NEW schedule value (in
the source via `model_copy(deep=True)`; the engine's `initial` is never
mutated), and the proposed schedule differs from the initial one only in the
fields the strategy targets: `default_duration` for Duration Adjustment,
`schedule_day` for Time-of-Day Shifting and Alternative Day, and the two
working-hours fields for Relax Constraints — every other field is unchanged
(the record-update form forces all remaining fields to coincide with
`initial`). -/
theorem strategies_frame_copy_on_write :
    (∀ (initial : MeetingSchedule) (slots : List SlotInfo)
       (prefs : List ParticipantPreferences) (r : NegotiationResult),
       strategy_duration_adjust initial slots prefs = some r →
       ∃ d, r.proposed_schedule = some { initial with default_duration := d }) ∧
    (∀ (initial : MeetingSchedule) (slots : List SlotInfo)
       (prefs : List ParticipantPreferences) (r : NegotiationResult),
       strategy_time_shift initial slots prefs = some r →
       ∃ day, r.proposed_schedule = some { initial with schedule_day := day }) ∧
    (∀ (initial : MeetingSchedule) (parts : List Participant) (r : NegotiationResult),
       strategy_alternative_day initial parts = some r →
       ∃ day, r.proposed_schedule = some { initial with schedule_day := day }) ∧
    (∀ (initial : MeetingSchedule) (slots : List SlotInfo)
       (prefs : List ParticipantPreferences) (r : NegotiationResult),
       strategy_relax_hours initial slots prefs = some r →
       ∃ ws we, r.proposed_schedule = some { initial with
         working_hours_start := ws, working_hours_end := we }) := by
  refine ⟨?_, ?_, ?_, ?_⟩
  · intro initial slots prefs r h
    unfold strategy_duration_adjust at h
    dsimp only at h
    split at h
    · exact absurd h (by simp)
    · split at h
      · exact absurd h (by simp)
      · split at h
        · exact absurd h (by simp)
        · obtain rfl := Option.some.inj h
          exact ⟨_, rfl⟩
  · intro initial slots prefs r h
    unfold strategy_time_shift at h
    dsimp only at h
    split at h
    · exact absurd h (by simp)
    · obtain rfl := Option.some.inj h
      exact ⟨_, rfl⟩
  · intro initial parts r h
    unfold strategy_alternative_day at h
    dsimp only at h
    split at h
    · exact absurd h (by simp)
    · split at h
      · exact absurd h (by simp)
      · obtain rfl := Option.some.inj h
        exact ⟨_, rfl⟩
  · intro initial slots prefs r h
    unfold strategy_relax_hours at h
    dsimp only at h
    split at h
    · exact absurd h (by simp)
    · obtain rfl := Option.some.inj h
      exact ⟨_, _, rfl⟩

/-- Witness for C9: each of the four strategies, on a concrete input where it
fires, proposes a schedule that is `sampleSchedule` with only its target
field(s) changed. -/
theorem strategies_frame_copy_on_write_witness :
    (∃ (r : NegotiationResult) (d : Int),
       strategy_duration_adjust sampleSchedule [⟨540, 570, 60, 1⟩]
         [{ preferred_max_duration := some 30 }] = some r ∧
       r.proposed_schedule = some { sampleSchedule with default_duration := d }) ∧
    (∃ (r : NegotiationResult) (day : Int),
       strategy_time_shift sampleSchedule [⟨540, 570, 60, 1⟩] [] = some r ∧
       r.proposed_schedule = some { sampleSchedule with schedule_day := day }) ∧
    (∃ (r : NegotiationResult) (day : Int),
       strategy_alternative_day sampleSchedule [] = some r ∧
       r.proposed_schedule = some { sampleSchedule with schedule_day := day }) ∧
    (∃ (r : NegotiationResult) (ws we : Int),
       strategy_relax_hours sampleSchedule [⟨540, 570, 60, 1⟩] [] = some r ∧
       r.proposed_schedule = some { sampleSchedule with
         working_hours_start := ws, working_hours_end := we }) := by
  refine ⟨?_, ?_, ?_, ?_⟩
  · obtain ⟨d, hd⟩ := strategies_frame_copy_on_write.1 sampleSchedule
      [⟨540, 570, 60, 1⟩] [{ preferred_max_duration := some 30 }] _ rfl
    exact ⟨_, d, rfl, hd⟩
  · obtain ⟨day, hd⟩ := strategies_frame_copy_on_write.2.1 sampleSchedule
      [⟨540, 570, 60, 1⟩] [] _ rfl
    exact ⟨_, day, rfl, hd⟩
  · obtain ⟨day, hd⟩ := strategies_frame_copy_on_write.2.2.1 sampleSchedule [] _ rfl
    exact ⟨_, day, rfl, hd⟩
  · obtain ⟨ws, we, hd⟩ := strategies_frame_copy_on_write.2.2.2 sampleSchedule
      [⟨540, 570, 60, 1⟩] [] _ rfl
    exact ⟨_, ws, we, rfl, hd⟩

/-! ### C7: exhaustion yields the IMPOSSIBLE result, not an exception -/

/-- C7: when no slot passes the strict filter and every relaxation strategy
returns no result, `negotiate_schedule` returns (it is a total function, so
no exception is possible in the model) the IMPOSSIBLE result with no
schedule, no slot and no alternatives. -/
theorem negotiate_schedule_impossible_on_exhaustion :
    ∀ (initial : MeetingSchedule) (slots : List SlotInfo) (parts : List Participant)
      (min_score : ℚ) (prev : NegotiationStrategy),
      slots.filter (fun s => slot_respects_all s parts) = [] →
      strategy_duration_adjust initial slots (parts.map (·.preferences)) = none →
      strategy_time_shift initial slots (parts.map (·.preferences)) = none →
      strategy_alternative_day initial parts = none →
      strategy_relax_hours initial slots (parts.map (·.preferences)) = none →
      negotiate_schedule initial slots parts min_score prev =
        { outcome := .IMPOSSIBLE
          proposed_schedule := none
          selected_slot := none
          alternative_suggestions := []
          strategy_choose := .NONE } := by
  intro initial slots parts min_score prev h0 h1 h2 h3 h4
  unfold negotiate_schedule
  dsimp only
  rw [h0]
  simp only [sortByConfDesc, h1, h2, h3, h4, ite_self]
  rfl

/-- A sample schedule with the alternative-day feature disabled. -/
def sampleScheduleNoAlt : MeetingSchedule :=
  { sampleSchedule with max_alternative_days := 0 }

/-- Witness for C7: with no candidate slots, no participants, and alternative
days disabled, every stage is exhausted and the engine returns IMPOSSIBLE. -/
theorem negotiate_schedule_impossible_on_exhaustion_witness :
    negotiate_schedule sampleScheduleNoAlt [] [] 1 .NONE =
      { outcome := .IMPOSSIBLE
        proposed_schedule := none
        selected_slot := none
        alternative_suggestions := []
        strategy_choose := .NONE } :=
  negotiate_schedule_impossible_on_exhaustion sampleScheduleNoAlt [] [] 1 .NONE
    rfl rfl rfl rfl rfl

/-! ### C1: the strategy ladder and its wrap condition -/

/-- Result of one relaxation strategy, indexed by the strategy enum. -/
def strategyResult (initial : MeetingSchedule) (slots : List SlotInfo)
    (parts : List Participant) : NegotiationStrategy → Option NegotiationResult
  | .NONE => none
  | .DURATION_ADJUSTMENT =>
      strategy_duration_adjust initial slots (parts.map (·.preferences))
  | .TOD_SHIFTING => strategy_time_shift initial slots (parts.map (·.preferences))
  | .ALTERNATIVE_DAY => strategy_alternative_day initial parts
  | .RELAX_CONSTRAINTS => strategy_relax_hours initial slots (parts.map (·.preferences))

/-- Whether `negotiate_schedule` runs a given strategy this round, i.e. the
guard of the corresponding block. -/
def triedInRound (prev : NegotiationStrategy) : NegotiationStrategy → Bool
  | .NONE => false
  | .DURATION_ADJUSTMENT => durationGuard prev
  | .TOD_SHIFTING => todGuard prev
  | .ALTERNATIVE_DAY => altDayGuard prev
  | .RELAX_CONSTRAINTS => relaxGuard prev

/-- The ladder claim as the spec states it: when no slot passes the strict
filter, a result can come from a strategy whose ordinal is below
`previous_strategy` only if `previous_strategy` has already reached the TOP of
the ladder (RELAX_CONSTRAINTS), i.e. lower strategies are otherwise skipped. -/
def ladderClaimAsStated : Prop :=
  ∀ (initial : MeetingSchedule) (slots : List SlotInfo) (parts : List Participant)
    (min_score : ℚ) (prev : NegotiationStrategy),
    slots.filter (fun s => slot_respects_all s parts) = [] →
    ∀ k : NegotiationStrategy,
      (negotiate_schedule initial slots parts min_score prev).strategy_choose = k →
      k ≠ .NONE → k.ord < prev.ord → prev = .RELAX_CONSTRAINTS

/-- Counterexample to C1 as stated: the wrap fires at
`previous_strategy >= ALTERNATIVE_DAY`, not only at the top of the ladder.
With `previous_strategy = ALTERNATIVE_DAY` (not the top), one participant
preferring mornings with a 30-minute cap, and a single Monday 13:00-14:00
candidate, the strict filter rejects everything and the engine returns a
DURATION_ADJUSTMENT result - a strategy with a strictly lower ordinal than
`previous_strategy` was run although the top was never reached. -/
theorem ladder_wrap_counterexample : ¬ ladderClaimAsStated := by
  intro h
  have := h sampleSchedule [⟨780, 840, 60, 1⟩]
    [⟨{ prefer_morning := true, preferred_max_duration := some 30 }, []⟩] 1
    .ALTERNATIVE_DAY (by decide) .DURATION_ADJUSTMENT (by decide) (by decide) (by decide)
  exact absurd this (by decide)

theorem strategy_duration_adjust_choose {i : MeetingSchedule} {s : List SlotInfo}
    {p : List ParticipantPreferences} {r : NegotiationResult}
    (h : strategy_duration_adjust i s p = some r) :
    r.strategy_choose = .DURATION_ADJUSTMENT := by
  unfold strategy_duration_adjust at h
  dsimp only at h
  split at h
  · exact absurd h (by simp)
  · split at h
    · exact absurd h (by simp)
    · split at h
      · exact absurd h (by simp)
      · obtain rfl := Option.some.inj h
        rfl

theorem strategy_time_shift_choose {i : MeetingSchedule} {s : List SlotInfo}
    {p : List ParticipantPreferences} {r : NegotiationResult}
    (h : strategy_time_shift i s p = some r) :
    r.strategy_choose = .TOD_SHIFTING := by
  unfold strategy_time_shift at h
  dsimp only at h
  split at h
  · exact absurd h (by simp)
  · obtain rfl := Option.some.inj h
    rfl

theorem strategy_alternative_day_choose {i : MeetingSchedule} {p : List Participant}
    {r : NegotiationResult} (h : strategy_alternative_day i p = some r) :
    r.strategy_choose = .ALTERNATIVE_DAY := by
  unfold strategy_alternative_day at h
  dsimp only at h
  split at h
  · exact absurd h (by simp)
  · split at h
    · exact absurd h (by simp)
    · obtain rfl := Option.some.inj h
      rfl

theorem strategy_relax_hours_choose {i : MeetingSchedule} {s : List SlotInfo}
    {p : List ParticipantPreferences} {r : NegotiationResult}
    (h : strategy_relax_hours i s p = some r) :
    r.strategy_choose = .RELAX_CONSTRAINTS := by
  unfold strategy_relax_hours at h
  dsimp only at h
  split at h
  · exact absurd h (by simp)
  · obtain rfl := Option.some.inj h
    rfl

/-- C1 amended: when no slot passes the strict filter, the engine scans the
strategies in increasing enum order, runs exactly those admitted by the
guards (DURATION_ADJUSTMENT and TOD_SHIFTING whenever their ordinal is not
below `previous_strategy` OR `previous_strategy >= ALTERNATIVE_DAY` - the wrap
triggers from ALTERNATIVE_DAY on, not only at the top - while ALTERNATIVE_DAY
and RELAX_CONSTRAINTS are admitted only when strictly above
`previous_strategy`, wrap or no wrap), and returns the first non-None result
immediately: a result from strategy k means every admitted strategy below k
returned None; if none fires the IMPOSSIBLE result is returned. -/
theorem negotiate_schedule_ladder_order :
    ∀ (initial : MeetingSchedule) (slots : List SlotInfo) (parts : List Participant)
      (min_score : ℚ) (prev : NegotiationStrategy),
      slots.filter (fun s => slot_respects_all s parts) = [] →
      (∃ k : NegotiationStrategy,
         triedInRound prev k = true ∧
         strategyResult initial slots parts k =
           some (negotiate_schedule initial slots parts min_score prev) ∧
         (negotiate_schedule initial slots parts min_score prev).strategy_choose = k ∧
         ∀ j : NegotiationStrategy, j.ord < k.ord → triedInRound prev j = true →
           strategyResult initial slots parts j = none) ∨
      (negotiate_schedule initial slots parts min_score prev = impossibleResult ∧
       ∀ j : NegotiationStrategy, triedInRound prev j = true →
         strategyResult initial slots parts j = none) := by
  intro initial slots parts min_score prev h0
  unfold negotiate_schedule
  dsimp only
  rw [h0]
  simp only [sortByConfDesc]
  cases prev with
  | NONE =>
      rw [if_pos (by decide : durationGuard .NONE = true)]
      rcases hr1 : strategy_duration_adjust initial slots
          (List.map (fun x => x.preferences) parts) with _ | r1
      · try rw [hr1]
        rw [if_pos (by decide : todGuard .NONE = true)]
        rcases hr2 : strategy_time_shift initial slots
            (List.map (fun x => x.preferences) parts) with _ | r2
        · try rw [hr2]
          rw [if_pos (by decide : altDayGuard .NONE = true)]
          rcases hr3 : strategy_alternative_day initial parts with _ | r3
          · try rw [hr3]
            rw [if_pos (by decide : relaxGuard .NONE = true)]
            rcases hr4 : strategy_relax_hours initial slots
                (List.map (fun x => x.preferences) parts) with _ | r4
            · try rw [hr4]
              refine Or.inr ⟨rfl, ?_⟩
              intro j htried
              cases j
              · exact absurd htried (by decide)
              · exact hr1
              · exact hr2
              · exact hr3
              · exact hr4
            · try rw [hr4]
              refine Or.inl ⟨.RELAX_CONSTRAINTS, by decide, hr4, strategy_relax_hours_choose hr4, ?_⟩
              intro j hj htried
              cases j
              · exact absurd htried (by decide)
              · exact hr1
              · exact hr2
              · exact hr3
              · exact absurd hj (by decide)
          · try rw [hr3]
            refine Or.inl ⟨.ALTERNATIVE_DAY, by decide, hr3, strategy_alternative_day_choose hr3, ?_⟩
            intro j hj htried
            cases j
            · exact absurd htried (by decide)
            · exact hr1
            · exact hr2
            · exact absurd hj (by decide)
            · exact absurd hj (by decide)
        · try rw [hr2]
          refine Or.inl ⟨.TOD_SHIFTING, by decide, hr2, strategy_time_shift_choose hr2, ?_⟩
          intro j hj htried
          cases j
          · exact absurd htried (by decide)
          · exact hr1
          · exact absurd hj (by decide)
          · exact absurd hj (by decide)
          · exact absurd hj (by decide)
      · try rw [hr1]
        refine Or.inl ⟨.DURATION_ADJUSTMENT, by decide, hr1, strategy_duration_adjust_choose hr1, ?_⟩
        intro j hj htried
        cases j
        · exact absurd htried (by decide)
        · exact absurd hj (by decide)
        · exact absurd hj (by decide)
        · exact absurd hj (by decide)
        · exact absurd hj (by decide)
  | DURATION_ADJUSTMENT =>
      rw [if_neg (by decide : ¬durationGuard .DURATION_ADJUSTMENT = true)]
      rw [if_pos (by decide : todGuard .DURATION_ADJUSTMENT = true)]
      rcases hr2 : strategy_time_shift initial slots
          (List.map (fun x => x.preferences) parts) with _ | r2
      · try rw [hr2]
        rw [if_pos (by decide : altDayGuard .DURATION_ADJUSTMENT = true)]
        rcases hr3 : strategy_alternative_day initial parts with _ | r3
        · try rw [hr3]
          rw [if_pos (by decide : relaxGuard .DURATION_ADJUSTMENT = true)]
          rcases hr4 : strategy_relax_hours initial slots
              (List.map (fun x => x.preferences) parts) with _ | r4
          · try rw [hr4]
            refine Or.inr ⟨rfl, ?_⟩
            intro j htried
            cases j
            · exact absurd htried (by decide)
            · exact absurd htried (by decide)
            · exact hr2
            · exact hr3
            · exact hr4
          · try rw [hr4]
            refine Or.inl ⟨.RELAX_CONSTRAINTS, by decide, hr4, strategy_relax_hours_choose hr4, ?_⟩
            intro j hj htried
            cases j
            · exact absurd htried (by decide)
            · exact absurd htried (by decide)
            · exact hr2
            · exact hr3
            · exact absurd hj (by decide)
        · try rw [hr3]
          refine Or.inl ⟨.ALTERNATIVE_DAY, by decide, hr3, strategy_alternative_day_choose hr3, ?_⟩
          intro j hj htried
          cases j
          · exact absurd htried (by decide)
          · exact absurd htried (by decide)
          · exact hr2
          · exact absurd hj (by decide)
          · exact absurd hj (by decide)
      · try rw [hr2]
        refine Or.inl ⟨.TOD_SHIFTING, by decide, hr2, strategy_time_shift_choose hr2, ?_⟩
        intro j hj htried
        cases j
        · exact absurd htried (by decide)
        · exact absurd htried (by decide)
        · exact absurd hj (by decide)
        · exact absurd hj (by decide)
        · exact absurd hj (by decide)
  | TOD_SHIFTING =>
      rw [if_neg (by decide : ¬durationGuard .TOD_SHIFTING = true)]
      rw [if_neg (by decide : ¬todGuard .TOD_SHIFTING = true)]
      rw [if_pos (by decide : altDayGuard .TOD_SHIFTING = true)]
      rcases hr3 : strategy_alternative_day initial parts with _ | r3
      · try rw [hr3]
        rw [if_pos (by decide : relaxGuard .TOD_SHIFTING = true)]
        rcases hr4 : strategy_relax_hours initial slots
            (List.map (fun x => x.preferences) parts) with _ | r4
        · try rw [hr4]
          refine Or.inr ⟨rfl, ?_⟩
          intro j htried
          cases j
          · exact absurd htried (by decide)
          · exact absurd htried (by decide)
          · exact absurd htried (by decide)
          · exact hr3
          · exact hr4
        · try rw [hr4]
          refine Or.inl ⟨.RELAX_CONSTRAINTS, by decide, hr4, strategy_relax_hours_choose hr4, ?_⟩
          intro j hj htried
          cases j
          · exact absurd htried (by decide)
          · exact absurd htried (by decide)
          · exact absurd htried (by decide)
          · exact hr3
          · exact absurd hj (by decide)
      · try rw [hr3]
        refine Or.inl ⟨.ALTERNATIVE_DAY, by decide, hr3, strategy_alternative_day_choose hr3, ?_⟩
        intro j hj htried
        cases j
        · exact absurd htried (by decide)
        · exact absurd htried (by decide)
        · exact absurd htried (by decide)
        · exact absurd hj (by decide)
        · exact absurd hj (by decide)
  | ALTERNATIVE_DAY =>
      rw [if_pos (by decide : durationGuard .ALTERNATIVE_DAY = true)]
      rcases hr1 : strategy_duration_adjust initial slots
          (List.map (fun x => x.preferences) parts) with _ | r1
      · try rw [hr1]
        rw [if_pos (by decide : todGuard .ALTERNATIVE_DAY = true)]
        rcases hr2 : strategy_time_shift initial slots
            (List.map (fun x => x.preferences) parts) with _ | r2
        · try rw [hr2]
          rw [if_neg (by decide : ¬altDayGuard .ALTERNATIVE_DAY = true)]
          rw [if_pos (by decide : relaxGuard .ALTERNATIVE_DAY = true)]
          rcases hr4 : strategy_relax_hours initial slots
              (List.map (fun x => x.preferences) parts) with _ | r4
          · try rw [hr4]
            refine Or.inr ⟨rfl, ?_⟩
            intro j htried
            cases j
            · exact absurd htried (by decide)
            · exact hr1
            · exact hr2
            · exact absurd htried (by decide)
            · exact hr4
          · try rw [hr4]
            refine Or.inl ⟨.RELAX_CONSTRAINTS, by decide, hr4, strategy_relax_hours_choose hr4, ?_⟩
            intro j hj htried
            cases j
            · exact absurd htried (by decide)
            · exact hr1
            · exact hr2
            · exact absurd htried (by decide)
            · exact absurd hj (by decide)
        · try rw [hr2]
          refine Or.inl ⟨.TOD_SHIFTING, by decide, hr2, strategy_time_shift_choose hr2, ?_⟩
          intro j hj htried
          cases j
          · exact absurd htried (by decide)
          · exact hr1
          · exact absurd hj (by decide)
          · exact absurd hj (by decide)
          · exact absurd hj (by decide)
      · try rw [hr1]
        refine Or.inl ⟨.DURATION_ADJUSTMENT, by decide, hr1, strategy_duration_adjust_choose hr1, ?_⟩
        intro j hj htried
        cases j
        · exact absurd htried (by decide)
        · exact absurd hj (by decide)
        · exact absurd hj (by decide)
        · exact absurd hj (by decide)
        · exact absurd hj (by decide)
  | RELAX_CONSTRAINTS =>
      rw [if_pos (by decide : durationGuard .RELAX_CONSTRAINTS = true)]
      rcases hr1 : strategy_duration_adjust initial slots
          (List.map (fun x => x.preferences) parts) with _ | r1
      · try rw [hr1]
        rw [if_pos (by decide : todGuard .RELAX_CONSTRAINTS = true)]
        rcases hr2 : strategy_time_shift initial slots
            (List.map (fun x => x.preferences) parts) with _ | r2
        · try rw [hr2]
          rw [if_neg (by decide : ¬altDayGuard .RELAX_CONSTRAINTS = true)]
          rw [if_neg (by decide : ¬relaxGuard .RELAX_CONSTRAINTS = true)]
          refine Or.inr ⟨rfl, ?_⟩
          intro j htried
          cases j
          · exact absurd htried (by decide)
          · exact hr1
          · exact hr2
          · exact absurd htried (by decide)
          · exact absurd htried (by decide)
        · try rw [hr2]
          refine Or.inl ⟨.TOD_SHIFTING, by decide, hr2, strategy_time_shift_choose hr2, ?_⟩
          intro j hj htried
          cases j
          · exact absurd htried (by decide)
          · exact hr1
          · exact absurd hj (by decide)
          · exact absurd hj (by decide)
          · exact absurd hj (by decide)
      · try rw [hr1]
        refine Or.inl ⟨.DURATION_ADJUSTMENT, by decide, hr1, strategy_duration_adjust_choose hr1, ?_⟩
        intro j hj htried
        cases j
        · exact absurd htried (by decide)
        · exact absurd hj (by decide)
        · exact absurd hj (by decide)
        · exact absurd hj (by decide)
        · exact absurd hj (by decide)

/-- Witness for the amended C1 ladder theorem: with no candidate slots, no
participants and `previous_strategy = NONE`, the strict filter is empty and
the dispatch property holds concretely (the ALTERNATIVE_DAY strategy fires
after the two earlier admitted strategies return None). -/
theorem negotiate_schedule_ladder_order_witness :
    (∃ k : NegotiationStrategy,
       triedInRound .NONE k = true ∧
       strategyResult sampleSchedule [] [] k =
         some (negotiate_schedule sampleSchedule [] [] 1 .NONE) ∧
       (negotiate_schedule sampleSchedule [] [] 1 .NONE).strategy_choose = k ∧
       ∀ j : NegotiationStrategy, j.ord < k.ord → triedInRound .NONE j = true →
         strategyResult sampleSchedule [] [] j = none) ∨
    (negotiate_schedule sampleSchedule [] [] 1 .NONE = impossibleResult ∧
     ∀ j : NegotiationStrategy, triedInRound .NONE j = true →
       strategyResult sampleSchedule [] [] j = none) :=
  negotiate_schedule_ladder_order sampleSchedule [] [] 1 .NONE rfl

end MultiAgent
